import Mathlib

/-
Verification of the data-loading module `ResNet/pytorch/data_load.py`:
the `ImageNet2012Dataset` adapter (label-index construction from a sidecar
file, per-index label lookup) and the transform chain operators
(`Rescale`, `RandomHorizontalFlip`, `RandomCrop`, `CenterCrop`, `ToTensor`,
`Normalize`, `ColorJitter`).

Modelling conventions:
* Python strings are modelled as `List Char` (kernel-reducible, with
  hand-rolled structural `split`/`strip` mirroring `str.split(' ')` and
  `str.strip()`).
* Python dicts are modelled as association lists with insertion-order
  semantics: updating an existing key overwrites it in place, a new key is
  appended at the end, lookup returns the (unique) binding.
* Machine floats only occur in the `Rescale` size computation
  (`self.output_size * h / w` followed by `int(...)`); sizes are small
  enough that the float computation is exact, so it is modelled as exact
  rational division followed by floor (Python `int()` truncates toward
  zero, which is floor on the non-negative values arising here).
* `np.random.randint(low, high)` and `random.random()` are modelled by an
  explicit draw argument: `randint` maps a natural draw into `[low, high)`
  and fails exactly when the range is empty (numpy raises `ValueError`);
  `random.random()` becomes a rational argument `r` with `0 ≤ r < 1`.
* Images are nested lists.  The geometric operators (`Rescale`,
  `RandomCrop`, `CenterCrop`, `RandomHorizontalFlip`) only touch the first
  two axes, so they are polymorphic in the entry type (an entry is a pixel
  value for a 2-D image or a channel list for a 3-D one), exactly like the
  numpy code, which slices/flips the leading axes whatever trails.
-/

namespace DataLoad

/-- Python strings modelled as their character lists. -/
abbrev Str := List Char

/-- Whitespace characters removed by Python `str.strip()` (the ones that
can occur in a label sidecar line). -/
def isSpaceChar (c : Char) : Bool :=
  c = ' ' || c = '\t' || c = '\n' || c = '\r'

/-- Model of Python `str.strip()`: drop leading and trailing whitespace. -/
def stripChars (s : Str) : Str :=
  ((s.dropWhile isSpaceChar).reverse.dropWhile isSpaceChar).reverse

/-- Model of Python `str.split(sep)` with an explicit one-character
separator: splits at every occurrence of `sep`, keeping empty fields, and
always returns at least one (possibly empty) field. -/
def splitChars (sep : Char) : Str → List Str
  | [] => [[]]
  | c :: cs =>
    let r := splitChars sep cs
    if c = sep then [] :: r
    else
      match r with
      | [] => [[c]]
      | t :: ts => (c :: t) :: ts

/-- Association-list lookup: first binding wins (bindings produced by
`dictInsert` have unique keys, so this is Python dict lookup). -/
def lookupDict {κ ν : Type} [DecidableEq κ] : List (κ × ν) → κ → Option ν
  | [], _ => none
  | p :: d, k => if p.1 = k then some p.2 else lookupDict d k

/-- Python dict assignment `d[k] = v`: overwrite in place if `k` is
already bound, otherwise append the new binding at the end (insertion
order is preserved, as in CPython dicts). -/
def dictInsert {κ ν : Type} [DecidableEq κ] (d : List (κ × ν)) (k : κ) (v : ν) :
    List (κ × ν) :=
  if d.any (fun p => decide (p.1 = k)) then
    d.map (fun p => if p.1 = k then (k, v) else p)
  else d ++ [(k, v)]

/-- First token of a (stripped) sidecar line: `parts[0]` after
`line.strip().split(' ')`.  `split` never returns an empty list, so
`parts[0]` never fails; the default is dead code. -/
def lineKey (line : Str) : Str :=
  (splitChars ' ' (stripChars line)).headD []

/-- Display name of a sidecar line: `"".join(parts[1:])` — all tokens
after the first, concatenated with no separator. -/
def lineName (line : Str) : Str :=
  (splitChars ' ' (stripChars line)).tail.flatten

/-- The `while line:` loop of `ImageNet2012Dataset.__init__` over the
sidecar file's lines: for each line assign
`label_to_idx[parts[0]] = idx` and `idx_to_name[idx] = "".join(parts[1:])`,
incrementing `idx`. -/
def buildLoop : List Str → Nat → List (Str × Nat) → List (Nat × Str) →
    List (Str × Nat) × List (Nat × Str)
  | [], _, lti, itn => (lti, itn)
  | line :: rest, idx, lti, itn =>
    buildLoop rest (idx + 1)
      (dictInsert lti (lineKey line) idx)
      (dictInsert itn idx (lineName line))

/-- The label index built by `ImageNet2012Dataset.__init__` from the
sidecar file's lines: the pair `(label_to_idx, idx_to_name)`. -/
def labelIndexOf (lines : List Str) : List (Str × Nat) × List (Nat × Str) :=
  buildLoop lines 0 [] []

/-- The `(lineKey line, idx)` pairs produced from line index `i` on. -/
def enumKeysFrom (i : Nat) : List Str → List (Str × Nat)
  | [] => []
  | l :: ls => (lineKey l, i) :: enumKeysFrom (i + 1) ls

/-- The `(idx, lineName line)` pairs produced from line index `i` on. -/
def enumNamesFrom (i : Nat) : List Str → List (Nat × Str)
  | [] => []
  | l :: ls => (i, lineName l) :: enumNamesFrom (i + 1) ls

/-- Index (counting from `i`) of the last line whose first token is `k`. -/
def lastIdxFrom (i : Nat) (k : Str) : List Str → Option Nat
  | [] => none
  | l :: ls =>
    match lastIdxFrom (i + 1) k ls with
    | some j => some j
    | none => if lineKey l = k then some i else none

/-- Label key of an image file name: `image_name.split('_')[0]`. -/
def fileKey (nm : Str) : Str :=
  (splitChars '_' nm).headD []

/-- The label-lookup path of `ImageNet2012Dataset.__getitem__`: resolve
the index in the cached file listing (`IndexError` if out of range), then
`self.label_to_idx[parts[0]]` (`KeyError` if the prefix is unbound).
Image decoding and the transform run after this and cannot mask either
failure. -/
def getItemLabel (images : List Str) (lti : List (Str × Nat)) (idx : Nat) :
    Except String Nat :=
  match images.get? idx with
  | none => .error "IndexError"
  | some nm =>
    match lookupDict lti (fileKey nm) with
    | some v => .ok v
    | none => .error "KeyError"

/-! ### Samples and transform operators -/

/-- The unit flowing through the transform chain: the dict
`{image: ..., label-annotation: ...}` built by `__getitem__`.  The label
component is named `label` here (the source calls it `annotation`). -/
structure Sample (α : Type) where
  image : α
  label : Nat
deriving DecidableEq

/-- Desired output size of `Rescale`: `int` or 2-tuple, as asserted in
`Rescale.__init__`. -/
inductive OutSize where
  | scalar (s : Nat)
  | pair (h w : Nat)

/-- Model of `cv2.resize(image, (newW, newH))`: the output has `newH`
rows of `newW` entries.  The exact interpolated pixel values are internal
to the external imaging library; they are modelled by nearest-neighbour
sampling, which has the same (exact) shape semantics. -/
def cv2resize {α : Type} [Inhabited α] (img : List (List α)) (newW newH : Nat) :
    List (List α) :=
  (List.range newH).map (fun i =>
    (List.range newW).map (fun j =>
      (img.getD (i * img.length / newH) []).getD
        (j * (img.headD []).length / newW) default))

/-- Model of `Rescale.__call__`: read `(h, w) = image.shape[:2]`; for a
scalar target match the shorter edge to it keeping aspect ratio, for a
pair resize to exactly that size; truncate both dimensions with `int()`
(floor on these non-negative values) and resize. -/
def rescaleCall {α : Type} [Inhabited α] (sz : OutSize)
    (s : Sample (List (List α))) : Sample (List (List α)) :=
  let h := s.image.length
  let w := (s.image.headD []).length
  let nhw : ℚ × ℚ :=
    match sz with
    | .scalar os => if h > w then (((os : ℚ) * h) / w, (os : ℚ))
                    else ((os : ℚ), ((os : ℚ) * w) / h)
    | .pair nh nw => ((nh : ℚ), (nw : ℚ))
  let new_h : Nat := (⌊nhw.1⌋).toNat
  let new_w : Nat := (⌊nhw.2⌋).toNat
  ⟨cv2resize s.image new_w new_h, s.label⟩

/-- Mirror an image left to right: `np.fliplr(image)` reverses the second
axis (each row of leading-axis entries).  The `.copy()` in the source only
affects memory layout, not values. -/
def fliplr {α : Type} (img : List (List α)) : List (List α) :=
  img.map List.reverse

/-- Model of `RandomHorizontalFlip.__call__` with probability `p`: the
draw of `random.random()` is the explicit argument `r` (with `0 ≤ r < 1`);
if `r < p` the image is mirrored, otherwise passed through. -/
def randomHorizontalFlipCall {α : Type} (p r : ℚ)
    (s : Sample (List (List α))) : Sample (List (List α)) :=
  if r < p then ⟨fliplr s.image, s.label⟩ else ⟨s.image, s.label⟩

/-- Model of `np.random.randint(low, high)` for one explicit draw: any
natural `draw` selects a value in `[low, high)`; numpy raises
`ValueError: low >= high` when the range is empty. -/
def randint (low high : Int) (draw : Nat) : Except String Int :=
  if low < high then .ok (low + ((draw % (high - low).toNat : Nat) : Int))
  else .error "ValueError: low >= high"

/-- Python slice `l[start : start + len]` for `0 ≤ start`. -/
def sliceList {α : Type} (l : List α) (start len : Nat) : List α :=
  (l.drop start).take len

/-- The crop `image[top : top + newH, left : left + newW]`. -/
def crop2d {α : Type} (img : List (List α)) (top left newH newW : Nat) :
    List (List α) :=
  (sliceList img top newH).map (fun row => sliceList row left newW)

/-- Model of `RandomCrop.__call__` on crop size `(newH, newW)`:
`top = np.random.randint(0, h - newH)`, `left = np.random.randint(0, w - newW)`
(the two explicit draws `d1`, `d2`), then crop.  `h - newH` is computed in
`Int` as in Python; a numpy `ValueError` propagates. -/
def randomCropCall {α : Type} (newH newW d1 d2 : Nat)
    (s : Sample (List (List α))) : Except String (Sample (List (List α))) :=
  let h := s.image.length
  let w := (s.image.headD []).length
  match randint 0 ((h : Int) - (newH : Int)) d1 with
  | .error e => .error e
  | .ok top =>
    match randint 0 ((w : Int) - (newW : Int)) d2 with
    | .error e => .error e
    | .ok left => .ok ⟨crop2d s.image top.toNat left.toNat newH newW, s.label⟩

/-- Model of `CenterCrop.__call__`: deterministic offsets
`top = (h - newH) // 2`, `left = (w - newW) // 2`, then crop.  The model
covers `newH ≤ h` and `newW ≤ w` (the spec's precondition); beyond it the
Python offsets would go negative and index from the end. -/
def centerCropCall {α : Type} (newH newW : Nat)
    (s : Sample (List (List α))) : Sample (List (List α)) :=
  let h := s.image.length
  let w := (s.image.headD []).length
  ⟨crop2d s.image ((h - newH) / 2) ((w - newW) / 2) newH newW, s.label⟩

/-- A decoded numpy image as `ToTensor.__call__` receives it: either a
pure 2-D grayscale array (`len(image.shape) == 2`) or an `H×W×C` array. -/
inductive NpImage (α : Type) where
  | gray (g : List (List α))
  | color (c : List (List (List α)))
deriving DecidableEq

/-- Model of `np.stack((image,) * 3, axis=-1)` on a 2-D image: every
pixel value becomes the 3-element channel list `[v, v, v]`. -/
def npStack3 {α : Type} (img : List (List α)) : List (List (List α)) :=
  img.map (fun row => row.map (fun v => [v, v, v]))

/-- Model of `image.transpose((2, 0, 1))` on an `H×W×C` array: produce
the `C×H×W` array with entry `(c, i, j)` equal to entry `(i, j, c)`. -/
def npTranspose201 {α : Type} [Inhabited α] (a : List (List (List α))) :
    List (List (List α)) :=
  (List.range ((a.headD []).headD []).length).map (fun c =>
    a.map (fun row => row.map (fun px => px.getD c default)))

/-- Model of `ToTensor.__call__`: broadcast a pure grayscale image to 3
identical channels, then swap to channel-first layout.  The final
`torch.from_numpy(image).float()` converts the dtype without changing any
value, so it is invisible in this exact-value model. -/
def toTensorCall {α : Type} [Inhabited α] (s : Sample (NpImage α)) :
    Sample (List (List (List α))) :=
  match s.image with
  | .gray g => ⟨npTranspose201 (npStack3 g), s.label⟩
  | .color c => ⟨npTranspose201 c, s.label⟩

/-- Model of `Normalize.__call__`, delegating to the external
`F.normalize`: per channel `c`, `(value - mean[c]) / std[c]` on the
channel-first tensor. -/
def normalizeCall (mean std : List ℚ) (s : Sample (List (List (List ℚ)))) :
    Sample (List (List (List ℚ))) :=
  ⟨(s.image.zip (mean.zip std)).map (fun p =>
      p.1.map (fun row => row.map (fun v => (v - p.2.1) / p.2.2))),
    s.label⟩

/-- An image in the external library's displayable RGB byte form
(`H×W×3`, values `0..255`), the representation `ColorJitter.__call__`
converts to and from. -/
abbrev RGBImage := List (List (List ℚ))

/-- Model of the external `F.to_pil_image(image, mode='RGB')` /
`np.asarray(pil)` round trip: on an RGB byte `H×W×3` array both
conversions are value-preserving, so each is the identity on this
representation (their documented behaviour; they are library code, not
part of this repository). -/
def toPilRGB (img : RGBImage) : RGBImage := img

/-- Model of `np.asarray` on the PIL image produced above; see
`toPilRGB`. -/
def npAsarray (img : RGBImage) : RGBImage := img

/-- The adjustment list built by `ColorJitter.get_params`: one entry per
strictly positive coefficient, in the fixed order brightness, contrast,
saturation, hue.  Each entry is the lambda wrapping the external
`F.adjust_*` primitive with its drawn factor; those closures are the
function arguments `fB fC fS fH`. -/
def getParamsOps (fB fC fS fH : RGBImage → RGBImage)
    (brightness contrast saturation hue : ℚ) : List (RGBImage → RGBImage) :=
  (if brightness > 0 then [fB] else []) ++
  (if contrast > 0 then [fC] else []) ++
  (if saturation > 0 then [fS] else []) ++
  (if hue > 0 then [fH] else [])

/-- Model of `random.shuffle(transforms)`: the shuffled list selects
entries of the original list by the drawn permutation `perm` (indices of
the original list in the shuffled order). -/
def applyShuffle {α : Type} (perm : List Nat) (l : List α) : List α :=
  perm.filterMap (fun i => l.get? i)

/-- Model of `torchvision.transforms.Compose`: apply the listed
transforms left to right. -/
def composeOps {α : Type} (ops : List (α → α)) (x : α) : α :=
  ops.foldl (fun a f => f a) x

/-- Model of `ColorJitter.__call__`: convert the image to the library's
RGB pixel form, apply the shuffled adjustment chain from `get_params`,
convert back with `np.asarray`. -/
def colorJitterCall (fB fC fS fH : RGBImage → RGBImage)
    (brightness contrast saturation hue : ℚ) (perm : List Nat)
    (s : Sample RGBImage) : Sample RGBImage :=
  ⟨npAsarray (composeOps
      (applyShuffle perm (getParamsOps fB fC fS fH brightness contrast saturation hue))
      (toPilRGB s.image)),
    s.label⟩

/-! ### Dictionary lemmas -/

theorem lookupDict_eq_none_of_any_false {κ ν : Type} [DecidableEq κ]
    (d : List (κ × ν)) (k : κ)
    (h : d.any (fun p => decide (p.1 = k)) = false) :
    lookupDict d k = none := by
  induction d with
  | nil => rfl
  | cons p d ih =>
    simp only [List.any_cons, Bool.or_eq_false_iff, decide_eq_false_iff_not] at h
    simp only [lookupDict, if_neg h.1]
    exact ih h.2

theorem lookupDict_append {κ ν : Type} [DecidableEq κ]
    (d e : List (κ × ν)) (k : κ) :
    lookupDict (d ++ e) k =
      match lookupDict d k with
      | some v => some v
      | none => lookupDict e k := by
  induction d with
  | nil => rfl
  | cons p d ih =>
    by_cases hp : p.1 = k
    · simp [lookupDict, hp]
    · simp [lookupDict, hp, ih]

theorem lookupDict_map_overwrite_self {κ ν : Type} [DecidableEq κ]
    (d : List (κ × ν)) (k : κ) (v : ν)
    (h : d.any (fun p => decide (p.1 = k)) = true) :
    lookupDict (d.map (fun p => if p.1 = k then (k, v) else p)) k = some v := by
  induction d with
  | nil => simp at h
  | cons p d ih =>
    simp only [List.any_cons, Bool.or_eq_true, decide_eq_true_eq] at h
    by_cases hp : p.1 = k
    · simp [lookupDict, hp]
    · have hd : d.any (fun p => decide (p.1 = k)) = true := by
        rcases h with h | h
        · exact absurd h hp
        · exact h
      simp [lookupDict, hp, ih hd]

theorem lookupDict_map_overwrite_ne {κ ν : Type} [DecidableEq κ]
    (d : List (κ × ν)) (k k' : κ) (v : ν) (hne : k' ≠ k) :
    lookupDict (d.map (fun p => if p.1 = k then (k, v) else p)) k' =
      lookupDict d k' := by
  induction d with
  | nil => rfl
  | cons p d ih =>
    by_cases hp : p.1 = k
    · have : ¬ (k = k') := fun h => hne h.symm
      simp [lookupDict, hp, this, ih, hp ▸ this]
    · simp only [List.map_cons, if_neg hp, lookupDict, ih]

theorem lookupDict_dictInsert {κ ν : Type} [DecidableEq κ]
    (d : List (κ × ν)) (k k' : κ) (v : ν) :
    lookupDict (dictInsert d k v) k' =
      if k' = k then some v else lookupDict d k' := by
  unfold dictInsert
  by_cases hany : d.any (fun p => decide (p.1 = k)) = true
  · rw [if_pos hany]
    by_cases hk : k' = k
    · subst hk
      rw [if_pos rfl, lookupDict_map_overwrite_self d k' v hany]
    · rw [if_neg hk, lookupDict_map_overwrite_ne d k k' v hk]
  · have hfalse : d.any (fun p => decide (p.1 = k)) = false :=
      Bool.not_eq_true _ ▸ (by simpa using hany)
    rw [if_neg hany, lookupDict_append]
    by_cases hk : k' = k
    · subst hk
      rw [lookupDict_eq_none_of_any_false d k' hfalse]
      simp [lookupDict]
    · cases hval : lookupDict d k' with
      | some v' => simp [hval, hk]
      | none =>
        have hk2 : ¬ (k = k') := fun h => hk h.symm
        simp [hval, hk, hk2, lookupDict]

theorem dictInsert_fresh {κ ν : Type} [DecidableEq κ]
    (d : List (κ × ν)) (k : κ) (v : ν)
    (h : d.any (fun p => decide (p.1 = k)) = false) :
    dictInsert d k v = d ++ [(k, v)] := by
  unfold dictInsert
  rw [if_neg (by simp [h])]

/-! ### Build-loop structure lemmas -/

theorem buildLoop_fst (ls : List Str) :
    ∀ (i : Nat) (d : List (Str × Nat)) (itn : List (Nat × Str)),
      (∀ l ∈ ls, d.any (fun p => decide (p.1 = lineKey l)) = false) →
      (ls.map lineKey).Nodup →
      (buildLoop ls i d itn).1 = d ++ enumKeysFrom i ls := by
  induction ls with
  | nil => intro i d itn _ _; simp [buildLoop, enumKeysFrom]
  | cons l ls ih =>
    intro i d itn hfresh hnd
    simp only [List.map_cons, List.nodup_cons] at hnd
    have hl : d.any (fun p => decide (p.1 = lineKey l)) = false :=
      hfresh l (List.mem_cons_self l ls)
    have hstep : dictInsert d (lineKey l) i = d ++ [(lineKey l, i)] :=
      dictInsert_fresh d (lineKey l) i hl
    have hfresh' : ∀ l' ∈ ls,
        (d ++ [(lineKey l, i)]).any (fun p => decide (p.1 = lineKey l')) = false := by
      intro l' hl'
      have h1 : d.any (fun p => decide (p.1 = lineKey l')) = false :=
        hfresh l' (List.mem_cons_of_mem l hl')
      have h2 : lineKey l ≠ lineKey l' := by
        intro he
        exact hnd.1 (he ▸ List.mem_map_of_mem lineKey hl')
      simp [List.any_append, h1, h2]
    show (buildLoop ls (i + 1) (dictInsert d (lineKey l) i)
        (dictInsert itn i (lineName l))).1 = d ++ enumKeysFrom i (l :: ls)
    rw [hstep, ih (i + 1) _ (dictInsert itn i (lineName l)) hfresh' hnd.2]
    simp [enumKeysFrom, List.append_assoc]

theorem buildLoop_snd (ls : List Str) :
    ∀ (i : Nat) (d : List (Str × Nat)) (itn : List (Nat × Str)),
      (∀ p ∈ itn, p.1 < i) →
      (buildLoop ls i d itn).2 = itn ++ enumNamesFrom i ls := by
  induction ls with
  | nil => intro i d itn _; simp [buildLoop, enumNamesFrom]
  | cons l ls ih =>
    intro i d itn hlt
    have hany : itn.any (fun p => decide (p.1 = i)) = false := by
      rw [List.any_eq_false]
      intro p hp
      simp only [decide_eq_true_eq]
      exact Nat.ne_of_lt (hlt p hp)
    have hstep : dictInsert itn i (lineName l) = itn ++ [(i, lineName l)] :=
      dictInsert_fresh itn i (lineName l) hany
    have hlt' : ∀ p ∈ itn ++ [(i, lineName l)], p.1 < i + 1 := by
      intro p hp
      rcases List.mem_append.1 hp with h | h
      · exact Nat.lt_succ_of_lt (hlt p h)
      · simp at h
        simp [h]
    show (buildLoop ls (i + 1) (dictInsert d (lineKey l) i)
        (dictInsert itn i (lineName l))).2 = itn ++ enumNamesFrom i (l :: ls)
    rw [hstep, ih (i + 1) (dictInsert d (lineKey l) i) _ hlt']
    simp [enumNamesFrom, List.append_assoc]

theorem enumKeysFrom_map_fst (ls : List Str) :
    ∀ i, (enumKeysFrom i ls).map Prod.fst = ls.map lineKey := by
  induction ls with
  | nil => intro i; rfl
  | cons l ls ih => intro i; simp [enumKeysFrom, ih]

theorem enumKeysFrom_map_snd (ls : List Str) :
    ∀ i, (enumKeysFrom i ls).map Prod.snd = List.range' i ls.length := by
  induction ls with
  | nil => intro i; rfl
  | cons l ls ih => intro i; simp [enumKeysFrom, ih, List.range']

theorem enumKeysFrom_length (ls : List Str) (i : Nat) :
    (enumKeysFrom i ls).length = ls.length := by
  have := congrArg List.length (enumKeysFrom_map_fst ls i)
  simpa using this

theorem lastIdxFrom_eq_none_of_notMem (ls : List Str) :
    ∀ (i : Nat) (k : Str), k ∉ ls.map lineKey → lastIdxFrom i k ls = none := by
  induction ls with
  | nil => intro i k _; rfl
  | cons l ls ih =>
    intro i k hk
    simp only [List.map_cons, List.mem_cons, not_or] at hk
    have hne : ¬ (lineKey l = k) := fun h => hk.1 h.symm
    simp [lastIdxFrom, ih (i + 1) k hk.2, hne]

theorem lookupDict_enumKeysFrom (ls : List Str) :
    ∀ (i : Nat), (ls.map lineKey).Nodup →
      ∀ (n : Nat) (h : n < ls.length),
        lookupDict (enumKeysFrom i ls) (lineKey (ls.get ⟨n, h⟩)) = some (i + n) := by
  induction ls with
  | nil => intro i _ n h; exact absurd h (Nat.not_lt_zero n)
  | cons l ls ih =>
    intro i hnd n h
    simp only [List.map_cons, List.nodup_cons] at hnd
    cases n with
    | zero => simp [enumKeysFrom, lookupDict, List.get]
    | succ m =>
      have hm : m < ls.length := Nat.lt_of_succ_lt_succ h
      have hne : lineKey l ≠ lineKey (ls.get ⟨m, hm⟩) := by
        intro he
        exact hnd.1 (he ▸ List.mem_map_of_mem lineKey (ls.get_mem _ _))
      have := ih (i + 1) hnd.2 m hm
      simp only [enumKeysFrom, lookupDict, List.get, if_neg hne]
      rw [this]
      congr 1
      omega

theorem lookupDict_enumNamesFrom (ls : List Str) :
    ∀ (i n : Nat) (h : n < ls.length),
      lookupDict (enumNamesFrom i ls) (i + n) = some (lineName (ls.get ⟨n, h⟩)) := by
  induction ls with
  | nil => intro i n h; exact absurd h (Nat.not_lt_zero n)
  | cons l ls ih =>
    intro i n h
    cases n with
    | zero => simp [enumNamesFrom, lookupDict, List.get]
    | succ m =>
      have hm : m < ls.length := Nat.lt_of_succ_lt_succ h
      have hne : ¬ (i = i + (m + 1)) := by omega
      have := ih (i + 1) m hm
      simp only [enumNamesFrom, lookupDict, if_neg hne, List.get]
      rw [show i + (m + 1) = (i + 1) + m by omega, this]

theorem buildLoop_lookup_lastIdx (ls : List Str) :
    ∀ (i : Nat) (d : List (Str × Nat)) (itn : List (Nat × Str)) (k : Str),
      lookupDict (buildLoop ls i d itn).1 k =
        match lastIdxFrom i k ls with
        | some j => some j
        | none => lookupDict d k := by
  induction ls with
  | nil => intro i d itn k; rfl
  | cons l ls ih =>
    intro i d itn k
    simp only [buildLoop, lastIdxFrom]
    rw [ih (i + 1) _ _ k]
    cases hrec : lastIdxFrom (i + 1) k ls with
    | some j => simp
    | none =>
      simp only
      rw [lookupDict_dictInsert]
      by_cases hk : k = lineKey l
      · simp [hk]
      · have hne : ¬ (lineKey l = k) := fun h => hk h.symm
        simp [hk, hne]

/-! ### Claim theorems -/

/-- Claim C1: for every sidecar label file with N lines whose first tokens
are pairwise distinct, the built label index maps exactly the N prefixes,
the assigned class ids are exactly 0..N-1 with no gaps in line order, and
for every id `idx` the display name is the concatenation (no separator) of
all tokens after the first on line `idx + 1` (1-indexed file). -/
theorem C1_labelIndex_spec (lines : List Str)
    (hnd : (lines.map lineKey).Nodup) :
    (labelIndexOf lines).1.length = lines.length ∧
    (labelIndexOf lines).1.map Prod.fst = lines.map lineKey ∧
    (labelIndexOf lines).1.map Prod.snd = List.range lines.length ∧
    (∀ (n : Nat) (h : n < lines.length),
      lookupDict (labelIndexOf lines).1 (lineKey (lines.get ⟨n, h⟩)) = some n) ∧
    (∀ (n : Nat) (h : n < lines.length),
      lookupDict (labelIndexOf lines).2 n = some (lineName (lines.get ⟨n, h⟩))) := by
  have hfst : (labelIndexOf lines).1 = enumKeysFrom 0 lines := by
    have h := buildLoop_fst lines 0 [] [] (fun l _ => rfl) hnd
    simpa [labelIndexOf] using h
  have hsnd : (labelIndexOf lines).2 = enumNamesFrom 0 lines := by
    have h := buildLoop_snd lines 0 [] []
      (fun p hp => absurd hp (List.not_mem_nil p))
    simpa [labelIndexOf] using h
  refine ⟨?_, ?_, ?_, ?_, ?_⟩
  · rw [hfst]; exact enumKeysFrom_length lines 0
  · rw [hfst]; exact enumKeysFrom_map_fst lines 0
  · rw [hfst, enumKeysFrom_map_snd lines 0, List.range_eq_range']
  · intro n h
    rw [hfst]
    have h2 := lookupDict_enumKeysFrom lines 0 hnd n h
    simpa using h2
  · intro n h
    rw [hsnd]
    have h2 := lookupDict_enumNamesFrom lines 0 n h
    simpa using h2

/-- Witness for C1 on a concrete two-line sidecar file. -/
theorem C1_labelIndex_spec_witness :
    (List.map lineKey ["n01440764 tench Tinca".data, "n01443537 goldfish".data]).Nodup ∧
    (labelIndexOf ["n01440764 tench Tinca".data, "n01443537 goldfish".data]).1.length = 2 ∧
    (labelIndexOf ["n01440764 tench Tinca".data, "n01443537 goldfish".data]).1.map Prod.snd
      = List.range 2 ∧
    lookupDict (labelIndexOf ["n01440764 tench Tinca".data, "n01443537 goldfish".data]).1
      "n01443537".data = some 1 ∧
    lookupDict (labelIndexOf ["n01440764 tench Tinca".data, "n01443537 goldfish".data]).2 0
      = some "tenchTinca".data := by
  have h := C1_labelIndex_spec
    ["n01440764 tench Tinca".data, "n01443537 goldfish".data] (by decide)
  refine ⟨by decide, h.1, h.2.2.1, ?_, ?_⟩
  · have h4 := h.2.2.2.1 1 (by decide)
    have he : lineKey (["n01440764 tench Tinca".data,
        "n01443537 goldfish".data].get ⟨1, by decide⟩) = "n01443537".data := by decide
    rw [← he]
    exact h4
  · have h5 := h.2.2.2.2 0 (by decide)
    have he : lineName (["n01440764 tench Tinca".data,
        "n01443537 goldfish".data].get ⟨0, by decide⟩) = "tenchTinca".data := by decide
    rw [← he]
    exact h5

/-- Counterexample to claim C4: on the duplicate-prefix sidecar file
`["a x", "a y"]` the constructor does not fail; the build is total, the
duplicate prefix keeps a single binding whose id is the id of the last
line (1), and both display names are recorded.  There is no
duplicate-key check anywhere in `__init__`. -/
theorem C4_duplicate_counterexample :
    labelIndexOf ["a x".data, "a y".data]
      = ([("a".data, 1)], [(0, "x".data), (1, "y".data)]) ∧
    lookupDict (labelIndexOf ["a x".data, "a y".data]).1 "a".data = some 1 := by
  decide

/-- Claim C4 as amended: building the label index from a sidecar file with
a repeated prefix does not fail; dict assignment silently overwrites, so
every prefix (duplicated or not) is mapped to the id of its last
occurrence in the file. -/
theorem C4_duplicate_last_wins (lines : List Str) (k : Str) :
    lookupDict (labelIndexOf lines).1 k = lastIdxFrom 0 k lines := by
  have h := buildLoop_lookup_lastIdx lines 0 [] [] k
  rw [labelIndexOf, h]
  cases lastIdxFrom 0 k lines <;> rfl

/-- Claim C3: when the filename at a valid index has a label prefix (the
segment before the first underscore) absent from the label index, the
`__getitem__` label lookup fails with the `KeyError` path and never
produces any label value, in particular not a default of 0. -/
theorem C3_missing_key_fails (images : List Str) (lti : List (Str × Nat))
    (idx : Nat) (nm : Str) (hidx : images.get? idx = some nm)
    (habs : lookupDict lti (fileKey nm) = none) :
    getItemLabel images lti idx = .error "KeyError" ∧
    ∀ v : Nat, getItemLabel images lti idx ≠ .ok v := by
  have h1 : getItemLabel images lti idx = .error "KeyError" := by
    simp only [getItemLabel, hidx, habs]
  refine ⟨h1, fun v hv => ?_⟩
  rw [h1] at hv
  exact Except.noConfusion hv

/-- Witness for C3: the spec's example file `"zzz99999_1.JPEG"` against a
label index holding only the prefix `"n02708093"`. -/
theorem C3_missing_key_fails_witness :
    (["zzz99999_1.JPEG".data].get? 0 = some "zzz99999_1.JPEG".data) ∧
    lookupDict [("n02708093".data, 0)] (fileKey "zzz99999_1.JPEG".data) = none ∧
    getItemLabel ["zzz99999_1.JPEG".data] [("n02708093".data, 0)] 0
      = .error "KeyError" ∧
    getItemLabel ["zzz99999_1.JPEG".data] [("n02708093".data, 0)] 0 ≠ .ok 0 := by
  have h := C3_missing_key_fails ["zzz99999_1.JPEG".data] [("n02708093".data, 0)]
    0 "zzz99999_1.JPEG".data (by decide) (by decide)
  exact ⟨by decide, by decide, h.1, h.2 0⟩

/-- Counterexample to claim C5 as stated: its precondition is
`newH ≤ H` and `newW ≤ W`, but on a 2×2 image with crop size (2,1) —
`newH = H` allowed by the claim — `RandomCrop` raises numpy's
`ValueError` from `np.random.randint(0, 0)` instead of returning a
(2,1)-shaped image. -/
theorem C5_boundary_counterexample :
    randomCropCall 2 1 0 0 (⟨[[0, 1], [2, 3]], 5⟩ : Sample (List (List Nat)))
      = .error "ValueError: low >= high" := by
  rfl

/-- Claim C5 as amended: the precondition must be strict
(`newH < H` and `newW < W`).  Under it `RandomCrop` succeeds, the sampled
top-left offset lies in `[0, H-newH) × [0, W-newW)`, and the returned
image has shape exactly `(newH, newW)`. -/
theorem C5_randomCrop_shape {α : Type} (img : List (List α))
    (lab newH newW d1 d2 : Nat)
    (hrect : ∀ row ∈ img, row.length = (img.headD []).length)
    (hH : newH < img.length) (hW : newW < (img.headD []).length) :
    ∃ top left : Nat,
      randomCropCall newH newW d1 d2 ⟨img, lab⟩ =
        .ok ⟨crop2d img top left newH newW, lab⟩ ∧
      top < img.length - newH ∧
      left < (img.headD []).length - newW ∧
      (crop2d img top left newH newW).length = newH ∧
      ∀ row ∈ crop2d img top left newH newW, row.length = newW := by
  have hpos1 : (0 : Int) < (img.length : Int) - (newH : Int) := by omega
  have hpos2 : (0 : Int) < ((img.headD []).length : Int) - (newW : Int) := by omega
  have ht : d1 % (img.length - newH) < img.length - newH :=
    Nat.mod_lt _ (by omega)
  have hl : d2 % ((img.headD []).length - newW) < (img.headD []).length - newW :=
    Nat.mod_lt _ (by omega)
  refine ⟨d1 % (img.length - newH), d2 % ((img.headD []).length - newW),
    ?_, ht, hl, ?_, ?_⟩
  · have harg1 : ((img.length : Int) - (newH : Int)).toNat = img.length - newH := by
      omega
    have harg2 : (((img.headD []).length : Int) - (newW : Int)).toNat
        = (img.headD []).length - newW := by
      omega
    simp only [randomCropCall, randint, if_pos hpos1, if_pos hpos2, zero_add,
      sub_zero, harg1, harg2, Int.toNat_natCast]
  · simp only [crop2d, sliceList, List.length_map, List.length_take, List.length_drop]
    omega
  · intro row hrow
    simp only [crop2d, List.mem_map] at hrow
    obtain ⟨r0, hr0, rfl⟩ := hrow
    have hr0' : r0 ∈ img :=
      List.mem_of_mem_drop (List.mem_of_mem_take hr0)
    have hlen := hrect r0 hr0'
    simp only [sliceList, List.length_take, List.length_drop, hlen]
    omega

/-- Witness for C5 (amended) on a 2×2 image with crop size (1,1). -/
theorem C5_randomCrop_shape_witness :
    ∃ top left : Nat,
      randomCropCall 1 1 0 0 (⟨[[0, 1], [2, 3]], 5⟩ : Sample (List (List Nat))) =
        .ok ⟨crop2d [[0, 1], [2, 3]] top left 1 1, 5⟩ ∧
      top < 2 - 1 ∧
      left < 2 - 1 ∧
      (crop2d [[0, 1], [2, 3]] top left 1 1).length = 1 ∧
      ∀ row ∈ crop2d [[(0 : Nat), 1], [2, 3]] top left 1 1, row.length = 1 :=
  C5_randomCrop_shape [[0, 1], [2, 3]] 5 1 1 0 0 (by decide) (by decide) (by decide)

/-- Claim C10: when the crop exactly spans the image in some dimension
(`newH = H` or `newW = W`), `RandomCrop` raises numpy's empty-range
`ValueError` instead of returning the full-extent crop. -/
theorem C10_randomCrop_full_span_fails {α : Type} (img : List (List α))
    (lab newH newW d1 d2 : Nat)
    (hrect : ∀ row ∈ img, row.length = (img.headD []).length)
    (heq : newH = img.length ∨ newW = (img.headD []).length) :
    randomCropCall newH newW d1 d2 ⟨img, lab⟩
      = .error "ValueError: low >= high" := by
  rcases heq with he | he
  · have hneg : ¬ ((0 : Int) < (img.length : Int) - (newH : Int)) := by omega
    simp only [randomCropCall, randint, if_neg hneg]
  · by_cases hc : (0 : Int) < (img.length : Int) - (newH : Int)
    · have hneg : ¬ ((0 : Int) < ((img.headD []).length : Int) - (newW : Int)) := by
        omega
      simp only [randomCropCall, randint, if_pos hc, if_neg hneg]
    · simp only [randomCropCall, randint, if_neg hc]

/-- Witness for C10: a 2×2 image with crop size (2,2). -/
theorem C10_randomCrop_full_span_fails_witness :
    randomCropCall 2 2 1 1 (⟨[[0, 1], [2, 3]], 5⟩ : Sample (List (List Nat)))
      = .error "ValueError: low >= high" :=
  C10_randomCrop_full_span_fails [[0, 1], [2, 3]] 5 2 2 1 1 (by decide)
    (Or.inl (by decide))

/-- Claim C6: for every image of shape (H,W) with H > W and scalar target
S, `Rescale` produces an image of shape (⌊S·H/W⌋, S): the shorter edge
equals S, the aspect ratio is preserved up to the `int()` truncation of
`S * h / w` (floor on these non-negative values). -/
theorem C6_rescale_scalar_shape {α : Type} [Inhabited α] (img : List (List α))
    (lab os : Nat)
    (hgt : (img.headD []).length < img.length)
    (hw : 0 < (img.headD []).length) :
    ((rescaleCall (.scalar os) ⟨img, lab⟩).image).length
        = os * img.length / (img.headD []).length ∧
    ∀ row ∈ (rescaleCall (.scalar os) ⟨img, lab⟩).image, row.length = os := by
  have hnh : (⌊((os : ℚ) * (img.length : ℚ)) / ((img.headD []).length : ℚ)⌋).toNat
      = os * img.length / (img.headD []).length := by
    rw [Int.floor_toNat,
      show ((os : ℚ) * (img.length : ℚ)) = ((os * img.length : ℕ) : ℚ) by push_cast; ring,
      Nat.floor_div_nat, Nat.floor_natCast]
  constructor
  · simp only [rescaleCall, cv2resize, gt_iff_lt, if_pos hgt, List.length_map,
      List.length_range]
    exact hnh
  · intro row hrow
    simp only [rescaleCall, cv2resize, gt_iff_lt, if_pos hgt, List.mem_map] at hrow
    obtain ⟨i, _, rfl⟩ := hrow
    simp [Int.floor_natCast]

/-- Witness for C6 on a 3×1 image with scalar target 2. -/
theorem C6_rescale_scalar_shape_witness :
    ((rescaleCall (.scalar 2) (⟨[[0], [1], [2]], 4⟩ : Sample (List (List Nat)))).image).length
        = 2 * 3 / 1 ∧
    ∀ row ∈ (rescaleCall (.scalar 2) (⟨[[0], [1], [2]], 4⟩ : Sample (List (List Nat)))).image,
      row.length = 2 :=
  C6_rescale_scalar_shape [[0], [1], [2]] 4 2 (by decide) (by decide)

/-- Claim C7: on a pure 2-D grayscale image, `ToTensor` returns the
channel-first `(3, H, W)` tensor whose three channels are each identical
to the original pixel array; values are carried over unchanged (the
`.float()` dtype conversion rescales nothing). -/
theorem C7_toTensor_gray {α : Type} [Inhabited α] (g : List (List α)) (lab : Nat)
    (hg : g ≠ []) (hrow : g.headD [] ≠ []) :
    (toTensorCall ⟨.gray g, lab⟩).image = [g, g, g] ∧
    ((toTensorCall ⟨.gray g, lab⟩).image).length = 3 := by
  obtain ⟨r, rs, rfl⟩ : ∃ r rs, g = r :: rs := by
    cases g with
    | nil => exact absurd rfl hg
    | cons r rs => exact ⟨r, rs, rfl⟩
  obtain ⟨v, vs, rfl⟩ : ∃ v vs, r = v :: vs := by
    cases r with
    | nil => exact absurd rfl hrow
    | cons v vs => exact ⟨v, vs, rfl⟩
  have hmain : (toTensorCall ⟨.gray ((v :: vs) :: rs), lab⟩).image
      = [(v :: vs) :: rs, (v :: vs) :: rs, (v :: vs) :: rs] := by
    show npTranspose201 (npStack3 ((v :: vs) :: rs)) = _
    have hch : (((npStack3 ((v :: vs) :: rs)).headD []).headD []).length = 3 := by
      simp [npStack3]
    rw [npTranspose201, hch, show List.range 3 = [0, 1, 2] from rfl]
    have hF : ∀ c ∈ [0, 1, 2],
        (npStack3 ((v :: vs) :: rs)).map
            (fun row => row.map (fun px => px.getD c default))
          = (v :: vs) :: rs := by
      intro c hc
      have hx : ∀ x : α, (([x, x, x] : List α))[c]?.getD default = x := by
        fin_cases hc <;> intro x <;> rfl
      have hcomp : ((fun px : List α => px[c]?.getD default) ∘ fun x : α => [x, x, x])
          = id := by
        funext x
        exact hx x
      simp [npStack3, List.map_map, hcomp, hx]
    simp only [List.map_cons, List.map_nil,
      hF 0 (by simp), hF 1 (by simp), hF 2 (by simp)]
  exact ⟨hmain, by rw [hmain]; rfl⟩

/-- Witness for C7 on the concrete grayscale image [[1,2],[3,4]]. -/
theorem C7_toTensor_gray_witness :
    (toTensorCall (⟨.gray [[1, 2], [3, 4]], 6⟩ : Sample (NpImage Nat))).image
        = [[[1, 2], [3, 4]], [[1, 2], [3, 4]], [[1, 2], [3, 4]]] ∧
    ((toTensorCall (⟨.gray [[1, 2], [3, 4]], 6⟩ : Sample (NpImage Nat))).image).length = 3 :=
  C7_toTensor_gray [[1, 2], [3, 4]] 6 (by decide) (by decide)

/-- Claim C8: `RandomHorizontalFlip` with p = 1.0 always mirrors, with
p = 0.0 never mirrors (for any draw r of `random.random()`, which
satisfies 0 ≤ r < 1), and mirroring is self-inverse. -/
theorem C8_flip_props {α : Type} (s : Sample (List (List α))) (r : ℚ)
    (h0 : 0 ≤ r) (h1 : r < 1) :
    randomHorizontalFlipCall 1 r s = ⟨fliplr s.image, s.label⟩ ∧
    randomHorizontalFlipCall 0 r s = s ∧
    fliplr (fliplr s.image) = s.image := by
  refine ⟨?_, ?_, ?_⟩
  · unfold randomHorizontalFlipCall
    rw [if_pos h1]
  · unfold randomHorizontalFlipCall
    rw [if_neg (not_lt.mpr h0)]
  · simp [fliplr, List.map_map]

/-- Witness for C8 at draw r = 1/2 on a concrete 2×2 image. -/
theorem C8_flip_props_witness :
    randomHorizontalFlipCall 1 (1 / 2) (⟨[[0, 1], [2, 3]], 7⟩ : Sample (List (List Nat)))
        = ⟨[[1, 0], [3, 2]], 7⟩ ∧
    randomHorizontalFlipCall 0 (1 / 2) (⟨[[0, 1], [2, 3]], 7⟩ : Sample (List (List Nat)))
        = ⟨[[0, 1], [2, 3]], 7⟩ ∧
    fliplr (fliplr [[(0 : Nat), 1], [2, 3]]) = [[0, 1], [2, 3]] := by
  have h := C8_flip_props (⟨[[0, 1], [2, 3]], 7⟩ : Sample (List (List Nat)))
    (1 / 2) (by norm_num) (by norm_num)
  refine ⟨?_, h.2.1, h.2.2⟩
  rw [h.1]
  rfl

/-- Claim C9: `ColorJitter` built with brightness = contrast =
saturation = hue = 0 is the identity transform: `get_params` builds an
empty adjustment list (every `if coeff > 0` guard fails), shuffling the
empty list leaves it empty, `Compose([])` is the identity, and the
RGB round trip through the imaging library preserves every pixel. -/
theorem C9_colorJitter_zero_id (fB fC fS fH : RGBImage → RGBImage)
    (perm : List Nat) (s : Sample RGBImage) :
    colorJitterCall fB fC fS fH 0 0 0 0 perm s = s := by
  have hops : getParamsOps fB fC fS fH 0 0 0 0 = [] := by
    simp [getParamsOps]
  have hsh : applyShuffle perm ([] : List (RGBImage → RGBImage)) = [] := by
    induction perm with
    | nil => rfl
    | cons a l ih =>
      simp only [applyShuffle, List.filterMap_cons, List.get?_nil] at ih ⊢
      exact ih
  unfold colorJitterCall
  rw [hops, hsh]
  rfl

/-- Claim C2: every operator of the transform chain returns the sample's
label/annotation component unchanged; only the image component is
transformed.  For `RandomCrop` this covers every sample it succeeds on
(in the failure case no sample is returned at all). -/
theorem C2_transforms_preserve_label {α β : Type} [Inhabited α] [Inhabited β]
    (sz : OutSize) (p r : ℚ) (newH newW d1 d2 : Nat) (mean std : List ℚ)
    (fB fC fS fH : RGBImage → RGBImage)
    (brightness contrast saturation hue : ℚ) (perm : List Nat)
    (s1 s3 s4 : Sample (List (List α))) (s2 : Sample (List (List β)))
    (s5 : Sample (NpImage α)) (s6 : Sample (List (List (List ℚ))))
    (s7 : Sample RGBImage) :
    (rescaleCall sz s1).label = s1.label ∧
    (randomHorizontalFlipCall p r s2).label = s2.label ∧
    (∀ s', randomCropCall newH newW d1 d2 s3 = .ok s' → s'.label = s3.label) ∧
    (centerCropCall newH newW s4).label = s4.label ∧
    (toTensorCall s5).label = s5.label ∧
    (normalizeCall mean std s6).label = s6.label ∧
    (colorJitterCall fB fC fS fH brightness contrast saturation hue perm s7).label
      = s7.label := by
  refine ⟨?_, ?_, ?_, ?_, ?_, ?_, ?_⟩
  · cases sz <;> rfl
  · unfold randomHorizontalFlipCall
    split <;> rfl
  · intro s' hs'
    simp only [randomCropCall, randint] at hs'
    split at hs'
    · exact Except.noConfusion hs'
    · split at hs'
      · exact Except.noConfusion hs'
      · injection hs' with h
        rw [← h]
  · rfl
  · obtain ⟨im, l⟩ := s5
    cases im <;> rfl
  · rfl
  · rfl

/-- Witness for C2 with every operator instantiated at concrete inputs. -/
theorem C2_transforms_preserve_label_witness :
    (rescaleCall (OutSize.pair 1 1)
        (⟨[[0, 1], [2, 3]], 9⟩ : Sample (List (List Nat)))).label = 9 ∧
    (randomHorizontalFlipCall (1 / 2) (1 / 4)
        (⟨[[0, 1], [2, 3]], 9⟩ : Sample (List (List Nat)))).label = 9 ∧
    (∀ s', randomCropCall 1 1 0 0
        (⟨[[0, 1], [2, 3]], 9⟩ : Sample (List (List Nat))) = .ok s' →
      s'.label = 9) ∧
    (centerCropCall 1 1 (⟨[[0, 1], [2, 3]], 9⟩ : Sample (List (List Nat)))).label
      = 9 ∧
    (toTensorCall (⟨.gray [[5]], 9⟩ : Sample (NpImage Nat))).label = 9 ∧
    (normalizeCall [1] [1] (⟨[[[2]]], 9⟩ : Sample (List (List (List ℚ))))).label
      = 9 ∧
    (colorJitterCall id id id id 0 0 0 0 []
        (⟨[[[2]]], 9⟩ : Sample RGBImage)).label = 9 :=
  C2_transforms_preserve_label (OutSize.pair 1 1) (1 / 2) (1 / 4) 1 1 0 0
    [1] [1] id id id id 0 0 0 0 []
    ⟨[[0, 1], [2, 3]], 9⟩ ⟨[[0, 1], [2, 3]], 9⟩ ⟨[[0, 1], [2, 3]], 9⟩
    ⟨[[0, 1], [2, 3]], 9⟩ ⟨.gray [[5]], 9⟩ ⟨[[[2]]], 9⟩ ⟨[[[2]]], 9⟩

end DataLoad
